import Mathlib

/-!
Shallow embedding of the grouped-frequency statistics engine of
`Untitled-1.py` (table builder, position locator, quantile/median,
mode, dispersion) and of the table builder of `ejerci.py`.

Python floats are modelled by exact rationals (`ℚ`), Python `int` by `ℤ`.
A Python function that can return `float("nan")`, raise an exception, or
return a value is modelled by `PyResult`: `nan` stands for the
not-a-number / `None` sentinel, `error` for a raised exception
(`ZeroDivisionError` / `IndexError`).  Python's `%g` numeric formatting is
abstracted as an arbitrary formatting function `fmt : ℚ → String`, passed
as a parameter; both source files apply the identical f-string shape
around it.
-/

/-- Outcome of a Python computation: a value, the NaN/None sentinel,
or a raised exception. -/
inductive PyResult (α : Type) where
  | val : α → PyResult α
  | nan : PyResult α
  | error : PyResult α
deriving DecidableEq, Repr

/-- `@dataclass Clase` of `Untitled-1.py` (identical in `ejerci.py`):
`minimo: float, maximo: float, fi: int`. -/
structure Clase where
  minimo : ℚ
  maximo : ℚ
  fi : ℤ
deriving DecidableEq, Repr

/-- `Clase.amplitud` property: `maximo - minimo`. -/
def Clase.amplitud (c : Clase) : ℚ := c.maximo - c.minimo

/-- `Clase.marca` property: `(minimo + maximo) / 2.0`. -/
def Clase.marca (c : Clase) : ℚ := (c.minimo + c.maximo) / 2

/-- `n = sum(c.fi for c in clases)`, recomputed by several functions. -/
def sumFi (clases : List Clase) : ℤ := (clases.map Clase.fi).sum

/-- Cumulative absolute frequency of the first `j` classes
(the running `Fi` accumulator value just before index `j`). -/
def acumFi : List Clase → Nat → ℤ
  | _, 0 => 0
  | [], _ + 1 => 0
  | c :: rest, j + 1 => c.fi + acumFi rest j

/-- One row of the frequency table produced by `construir_tabla`
in `Untitled-1.py` (the dict with keys
`intervalo, min, max, A, fi, Fi`). -/
structure Fila where
  intervalo : String
  min : ℚ
  max : ℚ
  A : ℚ
  fi : ℤ
  Fi : ℤ
deriving DecidableEq, Repr

/-- Loop body of `construir_tabla` (`Untitled-1.py`, lines 44-59):
iterates with running accumulator `Fi` and index `i`; the label closes
with `]` exactly on the last class (`i == len(clases)-1`). -/
def construirAux (fmt : ℚ → String) (len : Nat) :
    List Clase → ℤ → Nat → List Fila
  | [], _, _ => []
  | c :: rest, Fi, i =>
    let Fi2 := Fi + c.fi
    { intervalo := "[ " ++ fmt c.minimo ++ " , " ++ fmt c.maximo ++ " " ++
        (if i = len - 1 then "]" else "["),
      min := c.minimo, max := c.maximo, A := c.amplitud,
      fi := c.fi, Fi := Fi2 } :: construirAux fmt len rest Fi2 (i + 1)

/-- `construir_tabla(clases)` of `Untitled-1.py`: returns `(filas, n)`. -/
def construir_tabla (fmt : ℚ → String) (clases : List Clase) :
    List Fila × ℤ :=
  (construirAux fmt clases.length clases 0 0, sumFi clases)

/-- `media_agrupada`, value of the `n != 0` branch:
`sum(c.marca * c.fi for c in clases) / n`. -/
def mediaVal (clases : List Clase) : ℚ :=
  (clases.map (fun c => c.marca * (c.fi : ℚ))).sum / ((sumFi clases : ℤ) : ℚ)

/-- `media_agrupada(clases)`: NaN when `n == 0`. -/
def media_agrupada (clases : List Clase) : Option ℚ :=
  if sumFi clases = 0 then none else some (mediaVal clases)

/-- Loop of `buscar_clase_por_posicion`: scan with accumulator `Fi` and
index `i`; return `(i, previo)` at the first class where
`posicion <= Fi`.  `none` means the loop fell through. -/
def buscarLoop (posicion : ℚ) : List Clase → ℤ → Nat → Option (Nat × ℤ)
  | [], _, _ => none
  | c :: rest, Fi, i =>
    if posicion ≤ ((Fi + c.fi : ℤ) : ℚ) then some (i, Fi)
    else buscarLoop posicion rest (Fi + c.fi) (i + 1)

/-- `buscar_clase_por_posicion(clases, posicion)` (lines 69-76).
After the loop falls through, Python returns
`(len(clases)-1, Fi - clases[-1].fi)` where the final accumulator `Fi`
equals the total `n`; on the empty list `clases[-1]` raises `IndexError`,
modelled by `none`. -/
def buscar_clase_por_posicion (clases : List Clase) (posicion : ℚ) :
    Option (Nat × ℤ) :=
  match buscarLoop posicion clases 0 0 with
  | some r => some r
  | none =>
    match clases.getLast? with
    | none => none
    | some last => some (clases.length - 1, sumFi clases - last.fi)

/-- The real-valued target position `pos = k * n / m` of
`cuantil_agrupado` (true division of Python ints). -/
def posOf (clases : List Clase) (k m : ℤ) : ℚ :=
  ((k * sumFi clases : ℤ) : ℚ) / ((m : ℤ) : ℚ)

/-- `cuantil_agrupado(clases, k, m)` (lines 79-86).  `n == 0` returns
NaN; `m = 0` makes `k * n / m` raise `ZeroDivisionError`; a located
class with `fi = 0` makes `(pos - Fi_1) / c.fi` raise
`ZeroDivisionError`; both raises are modelled by `PyResult.error`. -/
def cuantil_agrupado (clases : List Clase) (k : ℤ) (m : ℤ) : PyResult ℚ :=
  let n := sumFi clases
  if n = 0 then .nan
  else if m = 0 then .error
  else
    match buscar_clase_por_posicion clases (posOf clases k m) with
    | none => .error
    | some (i, Fi_1) =>
      match clases[i]? with
      | none => .error
      | some c =>
        if c.fi = 0 then .error
        else .val (c.minimo +
          ((posOf clases k m - (Fi_1 : ℚ)) / (c.fi : ℚ)) * c.amplitud)

/-- `mediana_agrupada(clases) = cuantil_agrupado(clases, 2, 4)`. -/
def mediana_agrupada (clases : List Clase) : PyResult ℚ :=
  cuantil_agrupado clases 2 4

/-- `max(range(len(clases)), key=...)` of `moda_agrupada`: Python's
`max` keeps the first maximal element, replacing the current best only
on a strictly greater key. -/
def argmaxAux : List Clase → ℤ → Nat → Nat → Nat
  | [], _, best, _ => best
  | c :: rest, bestFi, best, cur =>
    if bestFi < c.fi then argmaxAux rest c.fi cur (cur + 1)
    else argmaxAux rest bestFi best (cur + 1)

/-- `moda_agrupada(clases)` (lines 93-105): `None` on the empty list,
else interpolation inside the first class of maximal `fi`. -/
def moda_agrupada (clases : List Clase) : Option ℚ :=
  match clases with
  | [] => none
  | c0 :: rest =>
    let idx := argmaxAux rest c0.fi 0 1
    let c := ((c0 :: rest)[idx]?).getD c0
    let f0 : ℤ := if 1 ≤ idx then (((c0 :: rest)[idx - 1]?).map Clase.fi).getD 0 else 0
    let f2 : ℤ := (((c0 :: rest)[idx + 1]?).map Clase.fi).getD 0
    let d1 := c.fi - f0
    let d2 := c.fi - f2
    if d1 + d2 = 0 then some ((c.minimo + c.maximo) / 2)
    else some (c.minimo + ((d1 : ℚ) / ((d1 + d2 : ℤ) : ℚ)) * c.amplitud)

/-- The `CV%` entry of the dispersion dict: `float("inf")` sentinel or a
finite value. -/
inductive CVPercent where
  | inf : CVPercent
  | val : ℝ → CVPercent

/-- The dict returned by `dispersion_agrupada` in the `n != 0` branch. -/
structure Dispersion where
  rango : ℚ
  var : ℚ
  sd : ℝ
  IQR : ℚ
  cv : CVPercent

/-- `ss = sum(c.fi * (c.marca - xbar) ** 2 for c in clases)`. -/
def ssum (clases : List Clase) (xbar : ℚ) : ℚ :=
  (clases.map (fun c => (c.fi : ℚ) * (c.marca - xbar) ^ 2)).sum

/-- `dispersion_agrupada(clases)` (lines 108-124).  `n == 0` returns the
all-NaN dict (`PyResult.nan`); otherwise `sd = math.sqrt(var)` is
computed before the quartiles and raises `ValueError` when `var < 0`
(reachable only through negative frequencies), modelled by
`PyResult.error`; for `var ≥ 0` the dict is built from `xbar`, `var`,
`sd`, the two quartiles and the range.  An exception raised by a
quartile call (or the impossible empty-list access) propagates as
`PyResult.error`. -/
noncomputable def dispersion_agrupada (clases : List Clase) :
    PyResult Dispersion :=
  let n := sumFi clases
  if n = 0 then .nan
  else
    let xbar := (media_agrupada clases).getD 0
    let ss := ssum clases xbar
    let var : ℚ := if 1 < n then ss / ((n - 1 : ℤ) : ℚ) else 0
    if var < 0 then .error
    else
      let sd : ℝ := Real.sqrt ((var : ℚ) : ℝ)
      match cuantil_agrupado clases 1 4, cuantil_agrupado clases 3 4,
          clases.head?, clases.getLast? with
      | .val q1, .val q3, some c0, some cl =>
        .val { rango := cl.maximo - c0.minimo, var := var, sd := sd,
               IQR := q3 - q1,
               cv := if xbar = 0 then .inf
                     else .val (sd / ((xbar : ℚ) : ℝ) * 100) }
      | _, _, _, _ => .error

namespace Ejerci

/-- The pandas `DataFrame` built by `construir_tabla` in `ejerci.py`
(lines 50-81), as its columns over the data rows plus the two non-empty
cells of the appended `TOTAL` row. -/
structure TablaDF where
  etiquetas : List String
  minimos : List ℚ
  maximos : List ℚ
  amplitudes : List ℚ
  fis : List ℤ
  Fis : List ℤ
  totalFi : ℤ
  totalFiAcum : ℤ
deriving DecidableEq, Repr

/-- `pd.Series(fi).cumsum().tolist()` with running accumulator. -/
def cumsumAux : List ℤ → ℤ → List ℤ
  | [], _ => []
  | x :: rest, acc => (acc + x) :: cumsumAux rest (acc + x)

/-- `pd.Series(fi).cumsum().tolist()`. -/
def cumsum (l : List ℤ) : List ℤ := cumsumAux l 0

/-- Label loop of `ejerci.py`'s `construir_tabla`: `[ a , b [` for every
class with `i < len(clases) - 1`, `[ a , b ]` for the last. -/
def etiquetasAux (fmt : ℚ → String) (len : Nat) :
    List Clase → Nat → List String
  | [], _ => []
  | c :: rest, i =>
    (if i < len - 1 then "[ " ++ fmt c.minimo ++ " , " ++ fmt c.maximo ++ " ["
     else "[ " ++ fmt c.minimo ++ " , " ++ fmt c.maximo ++ " ]") ::
    etiquetasAux fmt len rest (i + 1)

/-- `construir_tabla(clases)` of `ejerci.py`: the DataFrame columns and
the `TOTAL` row cells `sum(fi)` and `Fi[-1] if Fi else 0`. -/
def construir_tabla (fmt : ℚ → String) (clases : List Clase) : TablaDF :=
  let etiquetas := etiquetasAux fmt clases.length clases 0
  let fi := clases.map Clase.fi
  let Fi := cumsum fi
  { etiquetas := etiquetas,
    minimos := clases.map Clase.minimo,
    maximos := clases.map Clase.maximo,
    amplitudes := clases.map (fun c => c.maximo - c.minimo),
    fis := fi, Fis := Fi,
    totalFi := fi.sum,
    totalFiAcum := Fi.getLast?.getD 0 }

end Ejerci

/-! ### Helper lemmas about cumulative frequencies -/

@[simp]
theorem sumFi_nil : sumFi [] = 0 := rfl

@[simp]
theorem sumFi_cons (c : Clase) (l : List Clase) :
    sumFi (c :: l) = c.fi + sumFi l := by
  simp [sumFi]

@[simp]
theorem acumFi_zero (l : List Clase) : acumFi l 0 = 0 := by
  cases l <;> rfl

@[simp]
theorem acumFi_nil (j : Nat) : acumFi [] j = 0 := by
  cases j <;> rfl

@[simp]
theorem acumFi_cons_succ (c : Clase) (l : List Clase) (j : Nat) :
    acumFi (c :: l) (j + 1) = c.fi + acumFi l j := rfl

theorem acumFi_succ_get : ∀ (l : List Clase) (j : Nat) (c : Clase),
    l[j]? = some c → acumFi l (j + 1) = acumFi l j + c.fi
  | [], j, c, h => by simp at h
  | c0 :: rest, 0, c, h => by
    simp only [List.getElem?_cons_zero, Option.some_inj] at h
    subst h; simp
  | c0 :: rest, j + 1, c, h => by
    simp only [List.getElem?_cons_succ] at h
    have ih := acumFi_succ_get rest j c h
    simp [ih]; ring

theorem acumFi_le_succ (l : List Clase) (hnn : ∀ c ∈ l, 0 ≤ c.fi)
    (j : Nat) : acumFi l j ≤ acumFi l (j + 1) := by
  induction l generalizing j with
  | nil => simp
  | cons c rest ih =>
    cases j with
    | zero =>
      have := hnn c (by simp)
      simpa using this
    | succ j =>
      have := ih (fun c hc => hnn c (by simp [hc])) j
      simpa using this

theorem acumFi_mono (l : List Clase) (hnn : ∀ c ∈ l, 0 ≤ c.fi)
    {a b : Nat} (hab : a ≤ b) : acumFi l a ≤ acumFi l b := by
  induction b with
  | zero => simp_all
  | succ b ih =>
    rcases Nat.lt_or_ge a (b + 1) with h | h
    · exact le_trans (ih (Nat.lt_succ_iff.mp h)) (acumFi_le_succ l hnn b)
    · have : a = b + 1 := le_antisymm hab h
      subst this; rfl

theorem acumFi_nonneg (l : List Clase) (hnn : ∀ c ∈ l, 0 ≤ c.fi)
    (j : Nat) : 0 ≤ acumFi l j := by
  simpa using acumFi_mono l hnn (Nat.zero_le j)

theorem sumFi_eq_acum : ∀ l : List Clase, sumFi l = acumFi l l.length
  | [] => rfl
  | c :: rest => by simp [sumFi_eq_acum rest]

theorem acumFi_last : ∀ (l : List Clase) (h : l ≠ []),
    acumFi l (l.length - 1) = sumFi l - (l.getLast h).fi
  | [], h => absurd rfl h
  | [c], _ => by simp
  | c :: c2 :: rest, _ => by
    have ih := acumFi_last (c2 :: rest) (by simp)
    have hlen : (c :: c2 :: rest).length - 1 = (c2 :: rest).length := by simp
    rw [hlen, List.getLast_cons (by simp : c2 :: rest ≠ [])]
    have hlen2 : (c2 :: rest).length = ((c2 :: rest).length - 1) + 1 := by simp
    rw [hlen2, acumFi_cons_succ, ih]
    simp; ring

/-! ### Characterization of the position-locator loop -/

theorem buscarLoop_found (p : ℚ) :
    ∀ (l : List Clase) (acc : ℤ) (i0 j : Nat),
    j < l.length → p ≤ ((acc + acumFi l (j + 1) : ℤ) : ℚ) →
    (∀ j2, j2 < j → ((acc + acumFi l (j2 + 1) : ℤ) : ℚ) < p) →
    buscarLoop p l acc i0 = some (i0 + j, acc + acumFi l j)
  | [], acc, i0, j, hj, _, _ => by simp at hj
  | c :: rest, acc, i0, 0, hj, hle, hlt => by
    simp only [acumFi_cons_succ, acumFi_zero, add_zero] at hle ⊢
    unfold buscarLoop
    rw [if_pos (by simpa using hle)]
  | c :: rest, acc, i0, j + 1, hj, hle, hlt => by
    have h0 : ((acc + c.fi : ℤ) : ℚ) < p := by
      have := hlt 0 (Nat.succ_pos j)
      simpa using this
    unfold buscarLoop
    rw [if_neg (not_le.mpr h0)]
    have ih := buscarLoop_found p rest (acc + c.fi) (i0 + 1) j
      (by simpa using hj)
      (by rw [show acc + c.fi + acumFi rest (j + 1) =
              acc + acumFi (c :: rest) (j + 1 + 1) by simp; ring] at *
          exact hle)
      (fun j2 hj2 => by
        have := hlt (j2 + 1) (Nat.succ_lt_succ hj2)
        rw [show acc + c.fi + acumFi rest (j2 + 1) =
            acc + acumFi (c :: rest) (j2 + 1 + 1) by simp; ring]
        exact this)
    rw [ih]
    simp only [Option.some_inj, Prod.mk.injEq]
    exact ⟨by omega, by simp only [acumFi_cons_succ]; ring⟩

theorem buscarLoop_none (p : ℚ) :
    ∀ (l : List Clase) (acc : ℤ) (i0 : Nat),
    (∀ j, j < l.length → ((acc + acumFi l (j + 1) : ℤ) : ℚ) < p) →
    buscarLoop p l acc i0 = none
  | [], _, _, _ => rfl
  | c :: rest, acc, i0, hlt => by
    have h0 : ((acc + c.fi : ℤ) : ℚ) < p := by
      have := hlt 0 (Nat.succ_pos _)
      simpa using this
    unfold buscarLoop
    rw [if_neg (not_le.mpr h0)]
    exact buscarLoop_none p rest (acc + c.fi) (i0 + 1)
      (fun j hj => by
        have := hlt (j + 1) (Nat.succ_lt_succ hj)
        rw [show acc + c.fi + acumFi rest (j + 1) =
            acc + acumFi (c :: rest) (j + 1 + 1) by simp; ring]
        exact this)

theorem buscarLoop_shape (p : ℚ) :
    ∀ (l : List Clase) (acc : ℤ) (i0 : Nat) (r : Nat) (F : ℤ),
    buscarLoop p l acc i0 = some (r, F) →
    ∃ j, j < l.length ∧ r = i0 + j ∧ F = acc + acumFi l j
  | [], acc, i0, r, F, h => by simp [buscarLoop] at h
  | c :: rest, acc, i0, r, F, h => by
    unfold buscarLoop at h
    by_cases hif : p ≤ ((acc + c.fi : ℤ) : ℚ)
    · rw [if_pos hif] at h
      refine ⟨0, by simp, ?_, ?_⟩ <;> simp_all
    · rw [if_neg hif] at h
      obtain ⟨j, hj, hr, hF⟩ := buscarLoop_shape p rest (acc + c.fi) (i0 + 1) r F h
      exact ⟨j + 1, by simpa using hj, by omega, by simp [hF]; ring⟩

theorem buscarLoop_locate (p : ℚ) :
    ∀ (l : List Clase) (acc : ℤ) (i0 : Nat),
    ((acc : ℤ) : ℚ) < p → p ≤ ((acc + sumFi l : ℤ) : ℚ) →
    ∃ j c, j < l.length ∧ l[j]? = some c ∧ 0 < c.fi ∧
      buscarLoop p l acc i0 = some (i0 + j, acc + acumFi l j) ∧
      ((acc + acumFi l j : ℤ) : ℚ) < p ∧
      p ≤ ((acc + acumFi l (j + 1) : ℤ) : ℚ)
  | [], acc, i0, h0, hend => by
    simp only [sumFi_nil, add_zero] at hend
    exact absurd (lt_of_lt_of_le h0 hend) (lt_irrefl _)
  | c :: rest, acc, i0, h0, hend => by
    by_cases hif : p ≤ ((acc + c.fi : ℤ) : ℚ)
    · refine ⟨0, c, by simp, by simp, ?_, ?_, by simpa using h0, by simpa using hif⟩
      · have hq : ((acc : ℤ) : ℚ) < ((acc + c.fi : ℤ) : ℚ) := lt_of_lt_of_le h0 hif
        rw [Int.cast_lt] at hq
        omega
      · unfold buscarLoop
        rw [if_pos hif]
        simp
    · have h0' : ((acc + c.fi : ℤ) : ℚ) < p := not_le.mp hif
      have hend' : p ≤ ((acc + c.fi + sumFi rest : ℤ) : ℚ) := by
        rw [show acc + c.fi + sumFi rest = acc + sumFi (c :: rest) by simp; ring]
        exact hend
      obtain ⟨j, cc, hj, hget, hfi, heq, hlo, hhi⟩ :=
        buscarLoop_locate p rest (acc + c.fi) (i0 + 1) h0' hend'
      refine ⟨j + 1, cc, by simpa using hj, by simpa using hget, hfi, ?_, ?_, ?_⟩
      · unfold buscarLoop
        rw [if_neg hif, heq]
        simp only [Prod.mk.injEq, Option.some_inj]
        exact ⟨by omega, by simp only [acumFi_cons_succ]; ring⟩
      · rw [show acc + acumFi (c :: rest) (j + 1) = acc + c.fi + acumFi rest j
            by simp; ring]
        exact hlo
      · rw [show acc + acumFi (c :: rest) (j + 1 + 1) = acc + c.fi + acumFi rest (j + 1)
            by simp; ring]
        exact hhi

/-! ### Characterization of `buscar_clase_por_posicion` -/

theorem buscar_found (clases : List Clase) (p : ℚ) (j : Nat)
    (hj : j < clases.length)
    (hle : p ≤ ((acumFi clases (j + 1) : ℤ) : ℚ))
    (hfirst : ∀ j2, j2 < j → ((acumFi clases (j2 + 1) : ℤ) : ℚ) < p) :
    buscar_clase_por_posicion clases p = some (j, acumFi clases j) := by
  have h := buscarLoop_found p clases 0 0 j hj (by simpa using hle)
    (fun j2 hj2 => by simpa using hfirst j2 hj2)
  unfold buscar_clase_por_posicion
  rw [h]
  simp

theorem buscar_fallback (clases : List Clase) (p : ℚ) (h : clases ≠ [])
    (hall : ∀ j, j < clases.length → ((acumFi clases (j + 1) : ℤ) : ℚ) < p) :
    buscar_clase_por_posicion clases p =
      some (clases.length - 1, sumFi clases - (clases.getLast h).fi) := by
  have hn := buscarLoop_none p clases 0 0 (fun j hj => by simpa using hall j hj)
  unfold buscar_clase_por_posicion
  rw [hn, List.getLast?_eq_getLast clases h]

theorem buscar_locate (clases : List Clase) (p : ℚ)
    (h0 : 0 < p) (hn : p ≤ ((sumFi clases : ℤ) : ℚ)) :
    ∃ j c, j < clases.length ∧ clases[j]? = some c ∧ 0 < c.fi ∧
      buscar_clase_por_posicion clases p = some (j, acumFi clases j) ∧
      ((acumFi clases j : ℤ) : ℚ) < p ∧
      p ≤ ((acumFi clases (j + 1) : ℤ) : ℚ) := by
  obtain ⟨j, c, hj, hget, hfi, heq, hlo, hhi⟩ :=
    buscarLoop_locate p clases 0 0 (by simpa using h0) (by simpa using hn)
  refine ⟨j, c, hj, hget, hfi, ?_, by simpa using hlo, by simpa using hhi⟩
  unfold buscar_clase_por_posicion
  rw [heq]
  simp

theorem buscar_mem_snd (clases : List Clase) (p : ℚ) (r : Nat) (F : ℤ)
    (h : buscar_clase_por_posicion clases p = some (r, F)) :
    r < clases.length ∧ F = acumFi clases r := by
  unfold buscar_clase_por_posicion at h
  cases hloop : buscarLoop p clases 0 0 with
  | some v =>
    rw [hloop] at h
    simp only [Option.some_inj] at h
    subst h
    obtain ⟨j, hj, hr, hF⟩ := buscarLoop_shape p clases 0 0 r F hloop
    have hrj : r = j := by omega
    subst hrj
    exact ⟨hj, by simpa using hF⟩
  | none =>
    rw [hloop] at h
    cases hlast : clases.getLast? with
    | none => rw [hlast] at h; simp at h
    | some last =>
      rw [hlast] at h
      simp only [Option.some_inj, Prod.mk.injEq] at h
      obtain ⟨h1, h2⟩ := h
      have hne : clases ≠ [] := by
        intro hnil
        subst hnil
        simp at hlast
      have hlast2 : clases.getLast hne = last := by
        rw [← Option.some_inj, ← List.getLast?_eq_getLast clases hne, hlast]
      have hlen : 0 < clases.length := List.length_pos.mpr hne
      constructor
      · omega
      · rw [← h2, ← h1, acumFi_last clases hne, hlast2]

/-! ### Quantile evaluation lemma -/

theorem cuantil_eq_val (clases : List Clase) (k m : ℤ)
    (hn : sumFi clases ≠ 0) (hm : m ≠ 0) (j : Nat) (F : ℤ) (c : Clase)
    (hloc : buscar_clase_por_posicion clases (posOf clases k m) = some (j, F))
    (hc : clases[j]? = some c) (hfi : c.fi ≠ 0) :
    cuantil_agrupado clases k m = PyResult.val (c.minimo +
      ((posOf clases k m - (F : ℚ)) / (c.fi : ℚ)) * c.amplitud) := by
  simp only [cuantil_agrupado, hloc, hc, if_neg hn, if_neg hm, if_neg hfi]

theorem cuantil_nan (clases : List Clase) (k m : ℤ) (hn : sumFi clases = 0) :
    cuantil_agrupado clases k m = PyResult.nan := by
  simp only [cuantil_agrupado, if_pos hn]

/-- The worked example of the spec: classes
`(20,25,2), (25,30,5), (30,35,8), (35,40,4), (40,45,1)`, `n = 20`. -/
def ejemplo1 : List Clase :=
  [⟨20, 25, 2⟩, ⟨25, 30, 5⟩, ⟨30, 35, 8⟩, ⟨35, 40, 4⟩, ⟨40, 45, 1⟩]

/-! ### C1: quantile interpolation formula -/

/-- C1 (amended): for `n > 0`, `m > 0` and any integer `k`, **provided the
class located for target position `k*n/m` has nonzero absolute
frequency**, `cuantil_agrupado` returns
`c.minimo + ((k*n/m - Fi_before) / c.fi) * c.amplitud` with `Fi_before`
the cumulative frequency of all classes before `c`; and for `n = 0` it
returns the NaN sentinel instead of raising. -/
theorem C1_cuantil_formula :
    (∀ (clases : List Clase) (k m : ℤ), 0 < m → 0 < sumFi clases →
      ∀ (j : Nat) (F : ℤ) (c : Clase),
        buscar_clase_por_posicion clases (posOf clases k m) = some (j, F) →
        clases[j]? = some c → c.fi ≠ 0 →
        cuantil_agrupado clases k m = PyResult.val (c.minimo +
          ((posOf clases k m - ((acumFi clases j : ℤ) : ℚ)) / (c.fi : ℚ)) *
            c.amplitud))
    ∧ (∀ (clases : List Clase) (k m : ℤ), sumFi clases = 0 →
        cuantil_agrupado clases k m = PyResult.nan) := by
  constructor
  · intro clases k m hm hn j F c hloc hc hfi
    have hsnd := (buscar_mem_snd clases _ j F hloc).2
    subst hsnd
    exact cuantil_eq_val clases k m (by omega) (by omega) j _ c hloc hc hfi
  · intro clases k m hn
    exact cuantil_nan clases k m hn

/-- Witness for C1: the spec's worked example with `k = 2, m = 4`
(the median): position 10 lands in the third class. -/
theorem C1_cuantil_formula_witness :
    0 < (4 : ℤ) ∧ 0 < sumFi ejemplo1 ∧
    cuantil_agrupado ejemplo1 2 4 = PyResult.val ((⟨30, 35, 8⟩ : Clase).minimo +
      ((posOf ejemplo1 2 4 - ((acumFi ejemplo1 2 : ℤ) : ℚ)) /
        ((⟨30, 35, 8⟩ : Clase).fi : ℚ)) * (⟨30, 35, 8⟩ : Clase).amplitud) :=
  ⟨by decide, by decide,
    C1_cuantil_formula.1 ejemplo1 2 4 (by decide) (by decide) 2 7 ⟨30, 35, 8⟩
      (by with_unfolding_all decide) (by decide) (by decide)⟩

/-- C1 counterexample: for `[ (0,2,4), (2,5,0) ]` (total `n = 4 > 0`) with
`k = 3, m = 2 > 0`, the position `3*4/2 = 6` exceeds `n`, the fallback
locates the last class whose frequency is 0, and the code raises
`ZeroDivisionError` (modelled `PyResult.error`) instead of returning the
interpolated value the claim promises for every integer `k`. -/
theorem C1_cuantil_formula_counterexample :
    sumFi [(⟨0, 2, 4⟩ : Clase), ⟨2, 5, 0⟩] = 4 ∧ (0 : ℤ) < 2 ∧
    cuantil_agrupado [(⟨0, 2, 4⟩ : Clase), ⟨2, 5, 0⟩] 3 2 = PyResult.error :=
  ⟨by decide, by decide, by with_unfolding_all decide⟩

/-! ### C2: position locator -/

/-- C2: for every non-empty class sequence and target position `p`,
`buscar_clase_por_posicion` returns the first index whose running
cumulative frequency reaches or exceeds `p`, paired with the cumulative
frequency of all classes strictly before it; when no class satisfies
`Fi ≥ p` it returns the last index paired with
`total_n - last.fi`. -/
theorem C2_buscar_spec :
    ∀ (clases : List Clase) (p : ℚ) (h : clases ≠ []),
    (∀ j, j < clases.length → p ≤ ((acumFi clases (j + 1) : ℤ) : ℚ) →
      (∀ j2, j2 < j → ((acumFi clases (j2 + 1) : ℤ) : ℚ) < p) →
      buscar_clase_por_posicion clases p = some (j, acumFi clases j))
    ∧ ((∀ j, j < clases.length → ((acumFi clases (j + 1) : ℤ) : ℚ) < p) →
      buscar_clase_por_posicion clases p =
        some (clases.length - 1, sumFi clases - (clases.getLast h).fi)) :=
  fun clases p h =>
    ⟨fun j hj hle hfirst => buscar_found clases p j hj hle hfirst,
     fun hall => buscar_fallback clases p h hall⟩

/-- Witness for C2: position 10 in the worked example locates index 2
with `Fi_before = 7`; position 100 exceeds `n = 20` and falls back to
the last index with `Fi_before = 20 - 1 = 19`. -/
theorem C2_buscar_spec_witness :
    buscar_clase_por_posicion ejemplo1 10 = some (2, acumFi ejemplo1 2) ∧
    buscar_clase_por_posicion ejemplo1 100 =
      some (ejemplo1.length - 1,
        sumFi ejemplo1 - (ejemplo1.getLast (by simp [ejemplo1])).fi) :=
  ⟨(C2_buscar_spec ejemplo1 10 (by simp [ejemplo1])).1 2 (by decide)
      (by decide) (by decide),
   (C2_buscar_spec ejemplo1 100 (by simp [ejemplo1])).2 (by decide)⟩

/-! ### Table builder lemmas -/

theorem construirAux_length (fmt : ℚ → String) (len : Nat) :
    ∀ (l : List Clase) (F : ℤ) (i : Nat),
    (construirAux fmt len l F i).length = l.length
  | [], _, _ => rfl
  | c :: rest, F, i => by
    simp only [construirAux, List.length_cons]
    rw [construirAux_length fmt len rest (F + c.fi) (i + 1)]

theorem construirAux_get (fmt : ℚ → String) (len : Nat) :
    ∀ (l : List Clase) (F : ℤ) (i j : Nat) (c : Clase),
    l[j]? = some c →
    (construirAux fmt len l F i)[j]? = some
      { intervalo := "[ " ++ fmt c.minimo ++ " , " ++ fmt c.maximo ++ " " ++
          (if i + j = len - 1 then "]" else "["),
        min := c.minimo, max := c.maximo, A := c.amplitud, fi := c.fi,
        Fi := F + acumFi l (j + 1) }
  | [], _, _, j, c, h => by simp at h
  | c0 :: rest, F, i, 0, c, h => by
    simp only [List.getElem?_cons_zero, Option.some_inj] at h
    subst h
    simp [construirAux]
  | c0 :: rest, F, i, j + 1, c, h => by
    simp only [List.getElem?_cons_succ] at h
    have ih := construirAux_get fmt len rest (F + c0.fi) (i + 1) j c h
    simp only [construirAux, List.getElem?_cons_succ]
    rw [ih]
    have hidx : i + 1 + j = i + (j + 1) := by omega
    simp [hidx, add_assoc]

/-! ### C3: frequency table contents -/

/-- C3: `construir_tabla` yields one row per class in order; row `j`'s
cumulative frequency is the sum of the first `j+1` absolute frequencies;
every row but the last is labeled `"[ min , max ["` and the last
`"[ min , max ]"` (numeric formatting abstracted by `fmt`, standing for
Python's shortest `%g` format); `total_n` is the sum of all absolute
frequencies; the empty sequence yields `([], 0)`. -/
theorem C3_construir_tabla :
    (∀ fmt : ℚ → String, construir_tabla fmt [] = ([], 0))
    ∧ (∀ (fmt : ℚ → String) (clases : List Clase),
        (construir_tabla fmt clases).2 = sumFi clases)
    ∧ (∀ (fmt : ℚ → String) (clases : List Clase),
        (construir_tabla fmt clases).1.length = clases.length)
    ∧ (∀ (fmt : ℚ → String) (clases : List Clase) (j : Nat) (c : Clase),
        clases[j]? = some c →
        (construir_tabla fmt clases).1[j]? = some
          { intervalo := "[ " ++ fmt c.minimo ++ " , " ++ fmt c.maximo ++ " " ++
              (if j = clases.length - 1 then "]" else "["),
            min := c.minimo, max := c.maximo, A := c.amplitud, fi := c.fi,
            Fi := acumFi clases (j + 1) }) := by
  refine ⟨fun fmt => rfl,
          fun fmt clases => rfl,
          fun fmt clases => construirAux_length fmt clases.length clases 0 0,
          fun fmt clases j c h => ?_⟩
  have := construirAux_get fmt clases.length clases 0 0 j c h
  simpa using this

/-- Witness for C3: first and last rows of a concrete two-class table. -/
theorem C3_construir_tabla_witness :
    [(⟨20, 25, 2⟩ : Clase), ⟨25, 30, 5⟩][0]? = some ⟨20, 25, 2⟩ ∧
    (construir_tabla (fun _ => "n") [(⟨20, 25, 2⟩ : Clase), ⟨25, 30, 5⟩]).1[0]? =
      some { intervalo := "[ " ++ "n" ++ " , " ++ "n" ++ " " ++
               (if 0 = [(⟨20, 25, 2⟩ : Clase), ⟨25, 30, 5⟩].length - 1
                then "]" else "["),
             min := 20, max := 25, A := (⟨20, 25, 2⟩ : Clase).amplitud,
             fi := 2,
             Fi := acumFi [(⟨20, 25, 2⟩ : Clase), ⟨25, 30, 5⟩] 1 } :=
  ⟨by decide,
   C3_construir_tabla.2.2.2 (fun _ => "n") [⟨20, 25, 2⟩, ⟨25, 30, 5⟩] 0
     ⟨20, 25, 2⟩ (by decide)⟩

/-! ### C10: agreement of the two table builders -/

theorem string_append_assoc (x y z : String) : x ++ y ++ z = x ++ (y ++ z) := by
  apply String.ext
  simp [List.append_assoc]

theorem construir_vs_ejerci (fmt : ℚ → String) (len : Nat) :
    ∀ (l : List Clase) (F : ℤ) (i : Nat), i + l.length = len →
    (construirAux fmt len l F i).map Fila.intervalo =
        Ejerci.etiquetasAux fmt len l i
    ∧ (construirAux fmt len l F i).map Fila.A =
        l.map (fun c => c.maximo - c.minimo)
    ∧ (construirAux fmt len l F i).map Fila.fi = l.map Clase.fi
    ∧ (construirAux fmt len l F i).map Fila.Fi =
        Ejerci.cumsumAux (l.map Clase.fi) F
  | [], F, i, _ => by simp [construirAux, Ejerci.etiquetasAux, Ejerci.cumsumAux]
  | c :: rest, F, i, hlen => by
    have hlen' : (i + 1) + rest.length = len := by
      simp only [List.length_cons] at hlen
      omega
    obtain ⟨ih1, ih2, ih3, ih4⟩ :=
      construir_vs_ejerci fmt len rest (F + c.fi) (i + 1) hlen'
    refine ⟨?_, ?_, ?_, ?_⟩
    · simp only [construirAux, Ejerci.etiquetasAux, List.map_cons, ih1]
      congr 1
      rcases List.eq_nil_or_concat rest with hrest | _
      · subst hrest
        have hi : i = len - 1 := by simp at hlen; omega
        have hni : ¬ i < len - 1 := by omega
        rw [if_pos hi, if_neg hni, string_append_assoc]
        rfl
      · have hrest : rest.length ≠ 0 := by
          rcases rest with _ | _
          · simp_all
          · simp
        have hi : i ≠ len - 1 := by simp at hlen; omega
        have hni : i < len - 1 := by simp at hlen; omega
        rw [if_neg hi, if_pos hni, string_append_assoc]
        rfl
    · simp only [construirAux, List.map_cons, ih2, Clase.amplitud]
    · simp only [construirAux, List.map_cons, ih3]
    · simp only [construirAux, List.map_cons, Ejerci.cumsumAux, ih4]

/-- C10: on every non-empty class sequence the two `construir_tabla`
implementations agree class for class on interval labels, widths,
absolute and cumulative frequencies, and the `TOTAL` row frequency of
`ejerci.py` equals the `total_n` returned by `Untitled-1.py`. -/
theorem C10_tablas_coinciden :
    ∀ (fmt : ℚ → String) (clases : List Clase), clases ≠ [] →
    (construir_tabla fmt clases).1.map Fila.intervalo =
        (Ejerci.construir_tabla fmt clases).etiquetas
    ∧ (construir_tabla fmt clases).1.map Fila.A =
        (Ejerci.construir_tabla fmt clases).amplitudes
    ∧ (construir_tabla fmt clases).1.map Fila.fi =
        (Ejerci.construir_tabla fmt clases).fis
    ∧ (construir_tabla fmt clases).1.map Fila.Fi =
        (Ejerci.construir_tabla fmt clases).Fis
    ∧ (Ejerci.construir_tabla fmt clases).totalFi =
        (construir_tabla fmt clases).2 := by
  intro fmt clases _
  obtain ⟨h1, h2, h3, h4⟩ :=
    construir_vs_ejerci fmt clases.length clases 0 0 (by simp)
  exact ⟨h1, h2, h3, h4, by simp [Ejerci.construir_tabla, construir_tabla, sumFi]⟩

/-- Witness for C10: the two builders agree on the worked example. -/
theorem C10_tablas_coinciden_witness :
    (construir_tabla (fun _ => "x") ejemplo1).1.map Fila.intervalo =
        (Ejerci.construir_tabla (fun _ => "x") ejemplo1).etiquetas
    ∧ (construir_tabla (fun _ => "x") ejemplo1).1.map Fila.A =
        (Ejerci.construir_tabla (fun _ => "x") ejemplo1).amplitudes
    ∧ (construir_tabla (fun _ => "x") ejemplo1).1.map Fila.fi =
        (Ejerci.construir_tabla (fun _ => "x") ejemplo1).fis
    ∧ (construir_tabla (fun _ => "x") ejemplo1).1.map Fila.Fi =
        (Ejerci.construir_tabla (fun _ => "x") ejemplo1).Fis
    ∧ (Ejerci.construir_tabla (fun _ => "x") ejemplo1).totalFi =
        (construir_tabla (fun _ => "x") ejemplo1).2 :=
  C10_tablas_coinciden (fun _ => "x") ejemplo1 (by simp [ejemplo1])

/-! ### Mode: the argmax of Python's `max(range(...), key=...)` -/

theorem mem_of_getElem : ∀ (l : List Clase) (j : Nat) (c : Clase),
    l[j]? = some c → c ∈ l
  | [], j, c, h => by simp at h
  | c0 :: rest, 0, c, h => by
    simp only [List.getElem?_cons_zero, Option.some_inj] at h
    simp [h]
  | c0 :: rest, j + 1, c, h => by
    simp only [List.getElem?_cons_succ] at h
    exact List.mem_cons_of_mem c0 (mem_of_getElem rest j c h)

theorem mem_take_of_getElem : ∀ (l : List Clase) (i j : Nat) (c : Clase),
    j < i → l[j]? = some c → c ∈ l.take i
  | [], _, j, c, _, h => by simp at h
  | c0 :: rest, i, 0, c, hj, h => by
    simp only [List.getElem?_cons_zero, Option.some_inj] at h
    subst h
    rcases i with _ | i
    · omega
    · simp [List.take_cons]
  | c0 :: rest, i, j + 1, c, hj, h => by
    simp only [List.getElem?_cons_succ] at h
    rcases i with _ | i
    · omega
    · have := mem_take_of_getElem rest i j c (by omega) h
      simp [List.take_cons, this]

theorem argmaxAux_spec : ∀ (l : List Clase) (bFi : ℤ) (b cur : Nat),
    (argmaxAux l bFi b cur = b ∧ ∀ c ∈ l, c.fi ≤ bFi) ∨
    (∃ j c, j < l.length ∧ l[j]? = some c ∧
      argmaxAux l bFi b cur = cur + j ∧ bFi < c.fi ∧
      (∀ j2 c2, j2 < j → l[j2]? = some c2 → c2.fi < c.fi) ∧
      (∀ c2 ∈ l, c2.fi ≤ c.fi))
  | [], bFi, b, cur => Or.inl ⟨rfl, by simp⟩
  | c :: rest, bFi, b, cur => by
    by_cases hif : bFi < c.fi
    · have hstep : argmaxAux (c :: rest) bFi b cur =
          argmaxAux rest c.fi cur (cur + 1) := by
        simp [argmaxAux, hif]
      rcases argmaxAux_spec rest c.fi cur (cur + 1) with
        ⟨heq, hle⟩ | ⟨j, cc, hj, hget, heq, hlt, hbefore, hmax⟩
      · refine Or.inr ⟨0, c, by simp, by simp, ?_, hif, by omega, ?_⟩
        · rw [hstep, heq]; omega
        · intro c2 hc2
          rcases List.mem_cons.mp hc2 with h | h
          · exact le_of_eq (congrArg Clase.fi h)
          · exact hle c2 h
      · refine Or.inr ⟨j + 1, cc, by simpa using hj, by simpa using hget,
          ?_, lt_trans hif hlt, ?_, ?_⟩
        · rw [hstep, heq]; omega
        · intro j2 c2 hj2 hget2
          rcases j2 with _ | j2
          · simp only [List.getElem?_cons_zero, Option.some_inj] at hget2
            subst hget2; exact hlt
          · simp only [List.getElem?_cons_succ] at hget2
            exact hbefore j2 c2 (by omega) hget2
        · intro c2 hc2
          rcases List.mem_cons.mp hc2 with h | h
          · exact le_of_lt (lt_of_le_of_lt (le_of_eq (congrArg Clase.fi h)) hlt)
          · exact hmax c2 h
    · have hstep : argmaxAux (c :: rest) bFi b cur =
          argmaxAux rest bFi b (cur + 1) := by
        simp [argmaxAux, hif]
      have hcle : c.fi ≤ bFi := not_lt.mp hif
      rcases argmaxAux_spec rest bFi b (cur + 1) with
        ⟨heq, hle⟩ | ⟨j, cc, hj, hget, heq, hlt, hbefore, hmax⟩
      · refine Or.inl ⟨by rw [hstep, heq], ?_⟩
        intro c2 hc2
        rcases List.mem_cons.mp hc2 with h | h
        · exact le_trans (le_of_eq (congrArg Clase.fi h)) hcle
        · exact hle c2 h
      · refine Or.inr ⟨j + 1, cc, by simpa using hj, by simpa using hget,
          ?_, hlt, ?_, ?_⟩
        · rw [hstep, heq]; omega
        · intro j2 c2 hj2 hget2
          rcases j2 with _ | j2
          · simp only [List.getElem?_cons_zero, Option.some_inj] at hget2
            subst hget2; exact lt_of_le_of_lt hcle hlt
          · simp only [List.getElem?_cons_succ] at hget2
            exact hbefore j2 c2 (by omega) hget2
        · intro c2 hc2
          rcases List.mem_cons.mp hc2 with h | h
          · exact le_trans (le_of_eq (congrArg Clase.fi h))
              (le_trans hcle (le_of_lt hlt))
          · exact hmax c2 h

theorem firstmax_unique (l : List Clase) (i1 i2 : Nat) (c1 c2 : Clase)
    (h1 : l[i1]? = some c1) (hmax1 : ∀ c ∈ l, c.fi ≤ c1.fi)
    (hbef1 : ∀ j c, j < i1 → l[j]? = some c → c.fi < c1.fi)
    (h2 : l[i2]? = some c2) (hmax2 : ∀ c ∈ l, c.fi ≤ c2.fi)
    (hbef2 : ∀ j c, j < i2 → l[j]? = some c → c.fi < c2.fi) : i1 = i2 := by
  rcases Nat.lt_trichotomy i1 i2 with h | h | h
  · have hlt := hbef2 i1 c1 h h1
    have hle := hmax1 c2 (mem_of_getElem l i2 c2 h2)
    omega
  · exact h
  · have hlt := hbef1 i2 c2 h h2
    have hle := hmax2 c1 (mem_of_getElem l i1 c1 h1)
    omega

/-! ### C4: mode estimator -/

/-- C4: `moda_agrupada` picks the first class of maximal frequency,
computes `d1 = f_modal - f_prev` (with `f_prev = 0` when there is no
previous class) and `d2 = f_modal - f_next` (with `f_next = 0` when
there is no next class), returns the midpoint when `d1 + d2 = 0` and
otherwise `modal.minimo + (d1 / (d1 + d2)) * modal.amplitud`; the empty
sequence yields the `None` sentinel. -/
theorem C4_moda :
    moda_agrupada [] = none
    ∧ (∀ (clases : List Clase) (i : Nat) (c : Clase),
        clases[i]? = some c →
        (∀ c2 ∈ clases, c2.fi ≤ c.fi) →
        (∀ c2 ∈ clases.take i, c2.fi < c.fi) →
        moda_agrupada clases = some (
          if (c.fi - (if 1 ≤ i then ((clases[i - 1]?).map Clase.fi).getD 0 else 0)) +
             (c.fi - ((clases[i + 1]?).map Clase.fi).getD 0) = 0
          then (c.minimo + c.maximo) / 2
          else c.minimo +
            (((c.fi - (if 1 ≤ i then ((clases[i - 1]?).map Clase.fi).getD 0 else 0) : ℤ) : ℚ) /
             (((c.fi - (if 1 ≤ i then ((clases[i - 1]?).map Clase.fi).getD 0 else 0)) +
               (c.fi - ((clases[i + 1]?).map Clase.fi).getD 0) : ℤ) : ℚ)) *
            c.amplitud)) := by
  refine ⟨rfl, ?_⟩
  intro clases i c hc hmax hbef
  cases clases with
  | nil => simp at hc
  | cons c0 rest =>
    have hbefIdx : ∀ j c2, j < i → (c0 :: rest)[j]? = some c2 → c2.fi < c.fi :=
      fun j c2 hj hg => hbef c2 (mem_take_of_getElem _ i j c2 hj hg)
    have hidx : argmaxAux rest c0.fi 0 1 = i := by
      rcases argmaxAux_spec rest c0.fi 0 1 with
        ⟨heq, hle⟩ | ⟨j, cc, hj, hget, heq, hlt, hbefore, hmaxR⟩
      · rw [heq]
        refine firstmax_unique (c0 :: rest) 0 i c0 c (by simp) ?_
          (fun j x hj _ => absurd hj (Nat.not_lt_zero j)) hc hmax hbefIdx
        intro x hx
        rcases List.mem_cons.mp hx with h | h
        · exact le_of_eq (congrArg Clase.fi h)
        · exact hle x h
      · rw [heq]
        have hget' : (c0 :: rest)[j + 1]? = some cc := by simpa using hget
        have maxI : ∀ x ∈ (c0 :: rest), x.fi ≤ cc.fi := by
          intro x hx
          rcases List.mem_cons.mp hx with h | h
          · rw [h]; exact le_of_lt hlt
          · exact hmaxR x h
        have befI : ∀ j2 x, j2 < j + 1 → (c0 :: rest)[j2]? = some x →
            x.fi < cc.fi := by
          intro j2 x hj2 hg
          rcases j2 with _ | j2
          · simp only [List.getElem?_cons_zero, Option.some_inj] at hg
            rw [← hg]; exact hlt
          · simp only [List.getElem?_cons_succ] at hg
            exact hbefore j2 x (by omega) hg
        have := firstmax_unique (c0 :: rest) (j + 1) i cc c hget' maxI befI
          hc hmax hbefIdx
        omega
    simp only [moda_agrupada, hidx, hc, Option.getD_some]
    exact (apply_ite some _ _ _).symm

/-- Witness for C4: in the worked example the third class (index 2,
frequency 8) is the unique modal class. -/
theorem C4_moda_witness :
    ejemplo1[2]? = some ⟨30, 35, 8⟩ ∧
    moda_agrupada ejemplo1 = some (
      if ((⟨30, 35, 8⟩ : Clase).fi -
            (if 1 ≤ 2 then ((ejemplo1[2 - 1]?).map Clase.fi).getD 0 else 0)) +
         ((⟨30, 35, 8⟩ : Clase).fi - ((ejemplo1[2 + 1]?).map Clase.fi).getD 0) = 0
      then ((⟨30, 35, 8⟩ : Clase).minimo + (⟨30, 35, 8⟩ : Clase).maximo) / 2
      else (⟨30, 35, 8⟩ : Clase).minimo +
        ((((⟨30, 35, 8⟩ : Clase).fi -
            (if 1 ≤ 2 then ((ejemplo1[2 - 1]?).map Clase.fi).getD 0 else 0) : ℤ) : ℚ) /
         ((((⟨30, 35, 8⟩ : Clase).fi -
             (if 1 ≤ 2 then ((ejemplo1[2 - 1]?).map Clase.fi).getD 0 else 0)) +
           ((⟨30, 35, 8⟩ : Clase).fi -
             ((ejemplo1[2 + 1]?).map Clase.fi).getD 0) : ℤ) : ℚ)) *
        (⟨30, 35, 8⟩ : Clase).amplitud) :=
  ⟨by decide, C4_moda.2 ejemplo1 2 ⟨30, 35, 8⟩ (by decide) (by decide) (by decide)⟩

/-! ### Bounds on the quantile target position -/

theorem sumFi_ne_nil {clases : List Clase} (hn : sumFi clases ≠ 0) :
    clases ≠ [] := by
  intro h
  subst h
  exact hn rfl

theorem posOf_pos (clases : List Clase) (k m : ℤ)
    (hn : 0 < sumFi clases) (hk : 1 ≤ k) (hm : 0 < m) :
    0 < posOf clases k m := by
  unfold posOf
  apply div_pos
  · have : (0 : ℤ) < k * sumFi clases := mul_pos (by omega) hn
    exact_mod_cast this
  · exact_mod_cast hm

theorem posOf_le (clases : List Clase) (k m : ℤ)
    (hn : 0 ≤ sumFi clases) (hkm : k ≤ m) (hm : 0 < m) :
    posOf clases k m ≤ ((sumFi clases : ℤ) : ℚ) := by
  unfold posOf
  rw [div_le_iff (by exact_mod_cast hm)]
  have h : k * sumFi clases ≤ sumFi clases * m := by
    calc k * sumFi clases ≤ m * sumFi clases :=
          mul_le_mul_of_nonneg_right hkm hn
      _ = sumFi clases * m := by ring
  exact_mod_cast h

/-- For `n > 0` and `1 ≤ k ≤ m` the located class has strictly positive
frequency and the quantile evaluates to the interpolation value. -/
theorem cuantil_locate (clases : List Clase) (k m : ℤ)
    (hn : 0 < sumFi clases) (hk : 1 ≤ k) (hkm : k ≤ m) :
    ∃ j c, j < clases.length ∧ clases[j]? = some c ∧ 0 < c.fi ∧
      buscar_clase_por_posicion clases (posOf clases k m) =
        some (j, acumFi clases j) ∧
      cuantil_agrupado clases k m = PyResult.val (c.minimo +
        ((posOf clases k m - ((acumFi clases j : ℤ) : ℚ)) / (c.fi : ℚ)) *
          c.amplitud) ∧
      ((acumFi clases j : ℤ) : ℚ) < posOf clases k m ∧
      posOf clases k m ≤ ((acumFi clases (j + 1) : ℤ) : ℚ) := by
  have hm : 0 < m := by omega
  obtain ⟨j, c, hj, hget, hfi, hbus, hlo, hhi⟩ :=
    buscar_locate clases (posOf clases k m)
      (posOf_pos clases k m hn hk hm)
      (posOf_le clases k m (by omega) hkm hm)
  refine ⟨j, c, hj, hget, hfi, hbus, ?_, hlo, hhi⟩
  exact cuantil_eq_val clases k m (by omega) (by omega) j _ c hbus hget (by omega)

/-! ### C5: dispersion summary -/

theorem media_getD (clases : List Clase) (hn : sumFi clases ≠ 0) :
    (media_agrupada clases).getD 0 = mediaVal clases := by
  simp [media_agrupada, hn]

theorem dispersion_error_of_var_neg (clases : List Clase)
    (hn : sumFi clases ≠ 0)
    (hvar : (if 1 < sumFi clases
      then ssum clases (mediaVal clases) / ((sumFi clases - 1 : ℤ) : ℚ)
      else 0) < 0) :
    dispersion_agrupada clases = PyResult.error := by
  simp only [dispersion_agrupada, if_neg hn, media_getD clases hn,
    if_pos hvar]

theorem dispersion_val (clases : List Clase) (hn : 0 < sumFi clases)
    (hvnn : 0 ≤ (if 1 < sumFi clases
      then ssum clases (mediaVal clases) / ((sumFi clases - 1 : ℤ) : ℚ)
      else 0)) :
    ∃ d, dispersion_agrupada clases = PyResult.val d ∧
      d.var = (if 1 < sumFi clases
        then ssum clases (mediaVal clases) / ((sumFi clases - 1 : ℤ) : ℚ)
        else 0) ∧
      d.sd = Real.sqrt ((d.var : ℚ) : ℝ) ∧
      (∀ h : clases ≠ [],
        d.rango = (clases.getLast h).maximo - (clases.head h).minimo) ∧
      (mediaVal clases = 0 → d.cv = CVPercent.inf) ∧
      (mediaVal clases ≠ 0 →
        d.cv = CVPercent.val (d.sd / ((mediaVal clases : ℚ) : ℝ) * 100)) := by
  have hne : clases ≠ [] := sumFi_ne_nil (by omega)
  obtain ⟨q1, hq1⟩ : ∃ q, cuantil_agrupado clases 1 4 = PyResult.val q := by
    obtain ⟨j, c, _, _, _, _, h, _, _⟩ :=
      cuantil_locate clases 1 4 hn (by omega) (by omega)
    exact ⟨_, h⟩
  obtain ⟨q3, hq3⟩ : ∃ q, cuantil_agrupado clases 3 4 = PyResult.val q := by
    obtain ⟨j, c, _, _, _, _, h, _, _⟩ :=
      cuantil_locate clases 3 4 hn (by omega) (by omega)
    exact ⟨_, h⟩
  have hhead : clases.head? = some (clases.head hne) :=
    List.head?_eq_head hne
  have hlast : clases.getLast? = some (clases.getLast hne) :=
    List.getLast?_eq_getLast clases hne
  refine ⟨{ rango := (clases.getLast hne).maximo - (clases.head hne).minimo,
            var := if 1 < sumFi clases
              then ssum clases (mediaVal clases) / ((sumFi clases - 1 : ℤ) : ℚ)
              else 0,
            sd := Real.sqrt (((if 1 < sumFi clases
              then ssum clases (mediaVal clases) / ((sumFi clases - 1 : ℤ) : ℚ)
              else 0 : ℚ)) : ℝ),
            IQR := q3 - q1,
            cv := if mediaVal clases = 0 then CVPercent.inf
              else CVPercent.val (Real.sqrt (((if 1 < sumFi clases
                then ssum clases (mediaVal clases) / ((sumFi clases - 1 : ℤ) : ℚ)
                else 0 : ℚ)) : ℝ) / ((mediaVal clases : ℚ) : ℝ) * 100) },
          ?_, rfl, rfl, fun _ => rfl, fun h0 => by simp [h0], fun h0 => by simp [h0]⟩
  simp only [dispersion_agrupada, if_neg (show ¬ sumFi clases = 0 by omega),
    hq1, hq3, hhead, hlast, media_getD clases (by omega),
    if_neg (not_lt.mpr hvnn)]

/-- C5 (amended): the dispersion summary returns the all-NaN dict for
`n = 0`; for `n = 1` variance is exactly 0; for `n > 1`, **provided the
sample variance `ss / (n - 1)` is non-negative** (always the case for
non-negative frequencies; when it is negative, `math.sqrt` raises
`ValueError` instead of returning a dict), variance is `ss / (n - 1)`;
in both non-degenerate cases the standard deviation is the square root
of the variance, the range is `last.maximo - first.minimo`, and `CV%`
is `sd / mean * 100` for a nonzero mean and the infinity sentinel for a
zero mean. -/
theorem C5_dispersion :
    (∀ clases : List Clase, sumFi clases = 0 →
        dispersion_agrupada clases = PyResult.nan)
    ∧ (∀ clases : List Clase, sumFi clases = 1 →
        ∃ d, dispersion_agrupada clases = PyResult.val d ∧
          d.var = 0 ∧ d.sd = Real.sqrt ((d.var : ℚ) : ℝ) ∧
          (∀ h : clases ≠ [],
            d.rango = (clases.getLast h).maximo - (clases.head h).minimo) ∧
          (mediaVal clases = 0 → d.cv = CVPercent.inf) ∧
          (mediaVal clases ≠ 0 →
            d.cv = CVPercent.val (d.sd / ((mediaVal clases : ℚ) : ℝ) * 100)))
    ∧ (∀ clases : List Clase, 1 < sumFi clases →
        0 ≤ ssum clases (mediaVal clases) / ((sumFi clases - 1 : ℤ) : ℚ) →
        ∃ d, dispersion_agrupada clases = PyResult.val d ∧
          d.var = ssum clases (mediaVal clases) / ((sumFi clases - 1 : ℤ) : ℚ) ∧
          d.sd = Real.sqrt ((d.var : ℚ) : ℝ) ∧
          (∀ h : clases ≠ [],
            d.rango = (clases.getLast h).maximo - (clases.head h).minimo) ∧
          (mediaVal clases = 0 → d.cv = CVPercent.inf) ∧
          (mediaVal clases ≠ 0 →
            d.cv = CVPercent.val (d.sd / ((mediaVal clases : ℚ) : ℝ) * 100))) := by
  refine ⟨fun clases h => by simp [dispersion_agrupada, h], ?_, ?_⟩
  · intro clases h1
    obtain ⟨d, hd, hvar, hsd, hrango, hcv0, hcv1⟩ :=
      dispersion_val clases (by omega)
        (by rw [if_neg (by omega : ¬ 1 < sumFi clases)])
    rw [if_neg (by omega : ¬ 1 < sumFi clases)] at hvar
    exact ⟨d, hd, hvar, hsd, hrango, hcv0, hcv1⟩
  · intro clases h1 hvnn
    obtain ⟨d, hd, hvar, hsd, hrango, hcv0, hcv1⟩ :=
      dispersion_val clases (by omega) (by rwa [if_pos h1])
    rw [if_pos h1] at hvar
    exact ⟨d, hd, hvar, hsd, hrango, hcv0, hcv1⟩

/-- Witness for C5: the worked example has `n = 20 > 1` and a
non-negative sample variance. -/
theorem C5_dispersion_witness :
    1 < sumFi ejemplo1 ∧
    0 ≤ ssum ejemplo1 (mediaVal ejemplo1) / ((sumFi ejemplo1 - 1 : ℤ) : ℚ) ∧
    (∃ d, dispersion_agrupada ejemplo1 = PyResult.val d ∧
      d.var = ssum ejemplo1 (mediaVal ejemplo1) / ((sumFi ejemplo1 - 1 : ℤ) : ℚ) ∧
      d.sd = Real.sqrt ((d.var : ℚ) : ℝ) ∧
      (∀ h : ejemplo1 ≠ [],
        d.rango = (ejemplo1.getLast h).maximo - (ejemplo1.head h).minimo) ∧
      (mediaVal ejemplo1 = 0 → d.cv = CVPercent.inf) ∧
      (mediaVal ejemplo1 ≠ 0 →
        d.cv = CVPercent.val (d.sd / ((mediaVal ejemplo1 : ℚ) : ℝ) * 100))) :=
  ⟨by decide, by with_unfolding_all decide,
   C5_dispersion.2.2 ejemplo1 (by decide) (by with_unfolding_all decide)⟩

/-- C5 counterexample: at `[(0,1,-1), (2,3,5)]` the total is
`n = 4 > 1` but the sample variance is `ss / (n-1) = -5/3 < 0`
(negative frequency), so `math.sqrt` raises `ValueError`
(`PyResult.error`): the dispersion operation returns no dict at all,
refuting the claim's unconditional `n > 1` clause. -/
theorem C5_dispersion_counterexample :
    sumFi [(⟨0, 1, -1⟩ : Clase), ⟨2, 3, 5⟩] = 4 ∧
    ssum [(⟨0, 1, -1⟩ : Clase), ⟨2, 3, 5⟩]
      (mediaVal [(⟨0, 1, -1⟩ : Clase), ⟨2, 3, 5⟩]) /
      ((sumFi [(⟨0, 1, -1⟩ : Clase), ⟨2, 3, 5⟩] - 1 : ℤ) : ℚ) = -5 / 3 ∧
    dispersion_agrupada [(⟨0, 1, -1⟩ : Clase), ⟨2, 3, 5⟩] = PyResult.error ∧
    (PyResult.error : PyResult Dispersion) ≠ PyResult.nan := by
  refine ⟨by decide, by with_unfolding_all decide, ?_, by simp⟩
  apply dispersion_error_of_var_neg _ (by decide)
  rw [if_pos (by decide : (1 : ℤ) < sumFi [(⟨0, 1, -1⟩ : Clase), ⟨2, 3, 5⟩])]
  with_unfolding_all decide

/-! ### Ordering lemmas for monotonicity of the quantile -/

theorem lt_length_of_getElem : ∀ (l : List Clase) (j : Nat) (c : Clase),
    l[j]? = some c → j < l.length
  | [], j, c, h => by simp at h
  | c0 :: rest, 0, c, _ => by simp
  | c0 :: rest, j + 1, c, h => by
    simp only [List.getElem?_cons_succ] at h
    have := lt_length_of_getElem rest j c h
    simpa using this

theorem getElem_of_lt_length : ∀ (l : List Clase) (j : Nat),
    j < l.length → ∃ c, l[j]? = some c
  | [], j, h => by simp at h
  | c0 :: rest, 0, _ => ⟨c0, by simp⟩
  | c0 :: rest, j + 1, h => by
    obtain ⟨c, hc⟩ := getElem_of_lt_length rest j (by simpa using h)
    exact ⟨c, by simpa using hc⟩

theorem sumFi_nonneg (l : List Clase) (hnn : ∀ c ∈ l, 0 ≤ c.fi) :
    0 ≤ sumFi l := by
  induction l with
  | nil => simp
  | cons c rest ih =>
    have h1 := hnn c (by simp)
    have h2 := ih (fun x hx => hnn x (by simp [hx]))
    simp only [sumFi_cons]
    omega

theorem sumFi_pos (l : List Clase) (hnn : ∀ c ∈ l, 0 ≤ c.fi)
    (hpos : ∃ c ∈ l, 0 < c.fi) : 0 < sumFi l := by
  induction l with
  | nil => simp at hpos
  | cons c rest ih =>
    have h1 := hnn c (by simp)
    have h2 := sumFi_nonneg rest (fun x hx => hnn x (by simp [hx]))
    simp only [sumFi_cons]
    rcases hpos with ⟨d, hd, hdpos⟩
    rcases List.mem_cons.mp hd with h | h
    · subst h; omega
    · have := ih (fun x hx => hnn x (by simp [hx])) ⟨d, h, hdpos⟩
      omega

theorem chain'_getElem :
    ∀ (l : List Clase), List.Chain' (fun a b => a.maximo ≤ b.minimo) l →
    ∀ i c c2, l[i]? = some c → l[i + 1]? = some c2 → c.maximo ≤ c2.minimo
  | [], _, i, c, c2, h1, _ => by simp at h1
  | [c0], _, i, c, c2, h1, h2 => by
    rcases i with _ | i <;> simp at h2
  | c0 :: c1 :: rest, h, i, c, c2, h1, h2 => by
    rw [List.chain'_cons] at h
    rcases i with _ | i
    · simp only [List.getElem?_cons_zero, Option.some_inj] at h1
      simp only [List.getElem?_cons_succ, List.getElem?_cons_zero,
        Option.some_inj] at h2
      rw [← h1, ← h2]
      exact h.1
    · simp only [List.getElem?_cons_succ] at h1 h2
      exact chain'_getElem (c1 :: rest) h.2 i c c2 h1 (by simpa using h2)

theorem sorted_chain (clases : List Clase)
    (hval : ∀ c ∈ clases, c.minimo ≤ c.maximo)
    (hsort : ∀ i c c2, clases[i]? = some c → clases[i + 1]? = some c2 →
      c.maximo ≤ c2.minimo) :
    ∀ (j j2 : Nat) (c c2 : Clase), j < j2 → clases[j]? = some c →
      clases[j2]? = some c2 → c.maximo ≤ c2.minimo := by
  intro j j2
  induction j2 generalizing j with
  | zero => omega
  | succ j2 ih =>
    intro c c2 hj hgc hgc2
    rcases Nat.lt_succ_iff_lt_or_eq.mp hj with h | h
    · have hj2len : j2 < clases.length := by
        have := lt_length_of_getElem clases (j2 + 1) c2 hgc2
        omega
      obtain ⟨cm, hgcm⟩ := getElem_of_lt_length clases j2 hj2len
      have hmid := ih j c cm h hgc hgcm
      have hmm := hval cm (mem_of_getElem clases j2 cm hgcm)
      have hnext := hsort j2 cm c2 hgcm hgc2
      linarith
    · subst h
      exact hsort j c c2 hgc hgc2

/-! ### Bounds on the interpolated value inside a located class -/

theorem interp_le_max (c : Clase) (p : ℚ) (A : ℤ) (hfi : 0 < c.fi)
    (hamp : c.minimo ≤ c.maximo)
    (hhi : p ≤ ((A + c.fi : ℤ) : ℚ)) :
    c.minimo + ((p - (A : ℚ)) / (c.fi : ℚ)) * c.amplitud ≤ c.maximo := by
  have hfiq : (0 : ℚ) < (c.fi : ℚ) := by exact_mod_cast hfi
  have hsub : p - (A : ℚ) ≤ (c.fi : ℚ) := by
    push_cast at hhi
    linarith
  have hfrac : (p - (A : ℚ)) / (c.fi : ℚ) ≤ 1 :=
    (div_le_one hfiq).mpr hsub
  have hampq : (0 : ℚ) ≤ c.amplitud := by
    unfold Clase.amplitud
    linarith
  have := mul_le_mul_of_nonneg_right hfrac hampq
  unfold Clase.amplitud at *
  linarith

theorem min_le_interp (c : Clase) (p : ℚ) (A : ℤ) (hfi : 0 < c.fi)
    (hamp : c.minimo ≤ c.maximo)
    (hlo : ((A : ℤ) : ℚ) < p) :
    c.minimo ≤ c.minimo + ((p - (A : ℚ)) / (c.fi : ℚ)) * c.amplitud := by
  have hfiq : (0 : ℚ) < (c.fi : ℚ) := by exact_mod_cast hfi
  have hfrac : (0 : ℚ) ≤ (p - (A : ℚ)) / (c.fi : ℚ) :=
    le_of_lt (div_pos (by linarith) hfiq)
  have hampq : (0 : ℚ) ≤ c.amplitud := by
    unfold Clase.amplitud
    linarith
  nlinarith

theorem interp_mono_same (c : Clase) (p p2 : ℚ) (A : ℤ) (hfi : 0 < c.fi)
    (hamp : c.minimo ≤ c.maximo) (hpp : p ≤ p2) :
    c.minimo + ((p - (A : ℚ)) / (c.fi : ℚ)) * c.amplitud ≤
    c.minimo + ((p2 - (A : ℚ)) / (c.fi : ℚ)) * c.amplitud := by
  have hfiq : (0 : ℚ) < (c.fi : ℚ) := by exact_mod_cast hfi
  have hampq : (0 : ℚ) ≤ c.amplitud := by
    unfold Clase.amplitud
    linarith
  have hfrac : (p - (A : ℚ)) / (c.fi : ℚ) ≤ (p2 - (A : ℚ)) / (c.fi : ℚ) :=
    (div_le_div_right hfiq).mpr (by linarith)
  have := mul_le_mul_of_nonneg_right hfrac hampq
  linarith

/-- Comparison of the interpolated quantile values at two located
positions `p ≤ p2` of an ordered class sequence. -/
theorem located_val_le (clases : List Clase)
    (hnn : ∀ c ∈ clases, 0 ≤ c.fi)
    (hval : ∀ c ∈ clases, c.minimo ≤ c.maximo)
    (hsort : ∀ i c c2, clases[i]? = some c → clases[i + 1]? = some c2 →
      c.maximo ≤ c2.minimo)
    (p p2 : ℚ) (hpp : p ≤ p2)
    (j j2 : Nat) (c c2 : Clase)
    (hget : clases[j]? = some c) (hget2 : clases[j2]? = some c2)
    (hfi : 0 < c.fi) (hfi2 : 0 < c2.fi)
    (hlo : ((acumFi clases j : ℤ) : ℚ) < p)
    (hhi : p ≤ ((acumFi clases (j + 1) : ℤ) : ℚ))
    (hlo2 : ((acumFi clases j2 : ℤ) : ℚ) < p2)
    (hhi2 : p2 ≤ ((acumFi clases (j2 + 1) : ℤ) : ℚ)) :
    c.minimo + ((p - ((acumFi clases j : ℤ) : ℚ)) / (c.fi : ℚ)) * c.amplitud ≤
    c2.minimo + ((p2 - ((acumFi clases j2 : ℤ) : ℚ)) / (c2.fi : ℚ)) *
      c2.amplitud := by
  have hjle : j ≤ j2 := by
    by_contra hcon
    push_neg at hcon
    have hmono : acumFi clases (j2 + 1) ≤ acumFi clases j :=
      acumFi_mono clases hnn (by omega)
    have hq : ((acumFi clases (j2 + 1) : ℤ) : ℚ) ≤
        ((acumFi clases j : ℤ) : ℚ) := by exact_mod_cast hmono
    linarith
  rcases Nat.lt_or_ge j j2 with hjlt | hjge
  · have h1 : c.minimo + ((p - ((acumFi clases j : ℤ) : ℚ)) / (c.fi : ℚ)) *
        c.amplitud ≤ c.maximo := by
      apply interp_le_max c p (acumFi clases j) hfi
        (hval c (mem_of_getElem clases j c hget))
      rw [← acumFi_succ_get clases j c hget]
      exact hhi
    have h2 : c.maximo ≤ c2.minimo :=
      sorted_chain clases hval hsort j j2 c c2 hjlt hget hget2
    have h3 : c2.minimo ≤ c2.minimo +
        ((p2 - ((acumFi clases j2 : ℤ) : ℚ)) / (c2.fi : ℚ)) * c2.amplitud :=
      min_le_interp c2 p2 (acumFi clases j2) hfi2
        (hval c2 (mem_of_getElem clases j2 c2 hget2)) hlo2
    linarith
  · have hj : j = j2 := by omega
    subst hj
    have hcc : c = c2 := by
      rw [hget] at hget2
      exact Option.some_inj.mp hget2
    subst hcc
    exact interp_mono_same c p p2 (acumFi clases j) hfi
      (hval c (mem_of_getElem clases j c hget)) hpp

theorem posOf_mono (clases : List Clase) (k k2 m : ℤ)
    (hn : 0 ≤ sumFi clases) (hk : k ≤ k2) (hm : 0 < m) :
    posOf clases k m ≤ posOf clases k2 m := by
  unfold posOf
  have hmq : (0 : ℚ) < ((m : ℤ) : ℚ) := by exact_mod_cast hm
  refine (div_le_div_right hmq).mpr ?_
  have : k * sumFi clases ≤ k2 * sumFi clases :=
    mul_le_mul_of_nonneg_right hk hn
  exact_mod_cast this

/-! ### C6: monotonicity of the quantile in `k` -/

/-- C6 (amended): for every class sequence whose classes all satisfy
`minimo ≤ maximo` and are ordered (`maximo ≤` next `minimo`), with all
frequencies non-negative and at least one positive, the quartiles are
monotone: `Q1 ≤ Q2 ≤ Q3`. -/
theorem C6_cuantil_monotono (clases : List Clase)
    (hnn : ∀ c ∈ clases, 0 ≤ c.fi) (hpos : ∃ c ∈ clases, 0 < c.fi)
    (hval : ∀ c ∈ clases, c.minimo ≤ c.maximo)
    (hsort : List.Chain' (fun a b => a.maximo ≤ b.minimo) clases) :
    ∃ q1 q2 q3,
      cuantil_agrupado clases 1 4 = PyResult.val q1 ∧
      cuantil_agrupado clases 2 4 = PyResult.val q2 ∧
      cuantil_agrupado clases 3 4 = PyResult.val q3 ∧
      q1 ≤ q2 ∧ q2 ≤ q3 := by
  have hn := sumFi_pos clases hnn hpos
  have hsort' := chain'_getElem clases hsort
  obtain ⟨j1, c1, hj1, hget1, hfi1, hbus1, hq1, hlo1, hhi1⟩ :=
    cuantil_locate clases 1 4 hn (by omega) (by omega)
  obtain ⟨j2, c2, hj2, hget2, hfi2, hbus2, hq2, hlo2, hhi2⟩ :=
    cuantil_locate clases 2 4 hn (by omega) (by omega)
  obtain ⟨j3, c3, hj3, hget3, hfi3, hbus3, hq3, hlo3, hhi3⟩ :=
    cuantil_locate clases 3 4 hn (by omega) (by omega)
  have hp12 : posOf clases 1 4 ≤ posOf clases 2 4 :=
    posOf_mono clases 1 2 4 (by omega) (by omega) (by omega)
  have hp23 : posOf clases 2 4 ≤ posOf clases 3 4 :=
    posOf_mono clases 2 3 4 (by omega) (by omega) (by omega)
  refine ⟨_, _, _, hq1, hq2, hq3, ?_, ?_⟩
  · exact located_val_le clases hnn hval hsort' _ _ hp12 j1 j2 c1 c2
      hget1 hget2 hfi1 hfi2 hlo1 hhi1 hlo2 hhi2
  · exact located_val_le clases hnn hval hsort' _ _ hp23 j2 j3 c2 c3
      hget2 hget3 hfi2 hfi3 hlo2 hhi2 hlo3 hhi3

/-- Witness for C6: the spec's worked example (ordered, contiguous,
positive frequencies). -/
theorem C6_cuantil_monotono_witness :
    (∀ c ∈ ejemplo1, 0 ≤ c.fi) ∧ (∃ c ∈ ejemplo1, 0 < c.fi) ∧
    (∀ c ∈ ejemplo1, c.minimo ≤ c.maximo) ∧
    List.Chain' (fun a b => a.maximo ≤ b.minimo) ejemplo1 ∧
    (∃ q1 q2 q3,
      cuantil_agrupado ejemplo1 1 4 = PyResult.val q1 ∧
      cuantil_agrupado ejemplo1 2 4 = PyResult.val q2 ∧
      cuantil_agrupado ejemplo1 3 4 = PyResult.val q3 ∧
      q1 ≤ q2 ∧ q2 ≤ q3) :=
  ⟨by decide, by decide, by decide, by simp [ejemplo1],
   C6_cuantil_monotono ejemplo1 (by decide) (by decide) (by decide)
     (by simp [ejemplo1])⟩

/-- C6 counterexample: the classes `[(100,200,1), (0,1,1)]` have non-negative
frequencies with one positive (the claim's only hypotheses), yet
`Q2 = 200 > Q3 = 1/2` because the sequence is not in ascending interval
order: the claim as stated is false without an ordering hypothesis. -/
theorem C6_cuantil_monotono_counterexample :
    [(⟨100, 200, 1⟩ : Clase), ⟨0, 1, 1⟩].map Clase.fi = [1, 1] ∧
    cuantil_agrupado [(⟨100, 200, 1⟩ : Clase), ⟨0, 1, 1⟩] 2 4 =
      PyResult.val 200 ∧
    cuantil_agrupado [(⟨100, 200, 1⟩ : Clase), ⟨0, 1, 1⟩] 3 4 =
      PyResult.val (1 / 2) ∧
    ¬ ((200 : ℚ) ≤ 1 / 2) :=
  ⟨by decide, by with_unfolding_all decide, by with_unfolding_all decide,
   by norm_num⟩

/-! ### C7: positions landing exactly on a class boundary -/

/-- C7 (amended): for a class sequence with non-negative frequencies and
`n > 0`, when the target position `k*n/m` equals the cumulative
frequency through a class of positive frequency, the locator assigns
the position to that earlier class, the interpolation fraction is
exactly 1, and the quantile equals that class's maximum. -/
theorem C7_frontera (clases : List Clase) (k m : ℤ)
    (hnn : ∀ c ∈ clases, 0 ≤ c.fi) (hn : 0 < sumFi clases)
    (j : Nat) (c : Clase) (hc : clases[j]? = some c) (hfi : 0 < c.fi)
    (hpos : posOf clases k m = ((acumFi clases (j + 1) : ℤ) : ℚ)) :
    buscar_clase_por_posicion clases (posOf clases k m) =
      some (j, acumFi clases j)
    ∧ (posOf clases k m - ((acumFi clases j : ℤ) : ℚ)) / (c.fi : ℚ) = 1
    ∧ cuantil_agrupado clases k m = PyResult.val c.maximo := by
  have hjlen : j < clases.length := lt_length_of_getElem clases j c hc
  have hsucc : acumFi clases (j + 1) = acumFi clases j + c.fi :=
    acumFi_succ_get clases j c hc
  have hjnn : 0 ≤ acumFi clases j := acumFi_nonneg clases hnn j
  have h0 : 0 < posOf clases k m := by
    rw [hpos]
    have h : (0 : ℤ) < acumFi clases (j + 1) := by omega
    exact_mod_cast h
  have hle : posOf clases k m ≤ ((sumFi clases : ℤ) : ℚ) := by
    rw [hpos, sumFi_eq_acum]
    exact_mod_cast acumFi_mono clases hnn (by omega : j + 1 ≤ clases.length)
  obtain ⟨j0, c0, hj0, hget0, hfi0, hbus, hlo, hhi⟩ :=
    buscar_locate clases (posOf clases k m) h0 hle
  have hji : j0 = j := by
    rcases Nat.lt_trichotomy j0 j with h | h | h
    · have hm1 : acumFi clases (j0 + 1) ≤ acumFi clases j :=
        acumFi_mono clases hnn (by omega)
      rw [hpos] at hhi
      have h2 : acumFi clases (j + 1) ≤ acumFi clases (j0 + 1) := by
        exact_mod_cast hhi
      omega
    · exact h
    · have hm1 : acumFi clases (j + 1) ≤ acumFi clases j0 :=
        acumFi_mono clases hnn (by omega)
      rw [hpos] at hlo
      have h2 : acumFi clases j0 < acumFi clases (j + 1) := by
        exact_mod_cast hlo
      omega
  subst hji
  have hcc : c0 = c := by
    rw [hc] at hget0
    exact (Option.some_inj.mp hget0).symm
  subst hcc
  have hfrac : (posOf clases k m - ((acumFi clases j0 : ℤ) : ℚ)) /
      (c0.fi : ℚ) = 1 := by
    have hnum : posOf clases k m - ((acumFi clases j0 : ℤ) : ℚ) =
        (c0.fi : ℚ) := by
      rw [hpos, hsucc]
      push_cast
      ring
    rw [hnum]
    exact div_self (by exact_mod_cast (by omega : c0.fi ≠ 0))
  have hm0 : m ≠ 0 := by
    intro hm
    subst hm
    unfold posOf at h0
    simp at h0
  refine ⟨hbus, hfrac, ?_⟩
  rw [cuantil_eq_val clases k m (by omega) hm0 j0 (acumFi clases j0) c0
    hbus hget0 (by omega)]
  rw [hfrac, one_mul]
  unfold Clase.amplitud
  norm_num

/-- Witness for C7: in the worked example `Q3` has position
`3*20/4 = 15`, exactly the cumulative frequency through the third
class; the result is that class's maximum 35. -/
theorem C7_frontera_witness :
    posOf ejemplo1 3 4 = ((acumFi ejemplo1 3 : ℤ) : ℚ) ∧
    buscar_clase_por_posicion ejemplo1 (posOf ejemplo1 3 4) =
      some (2, acumFi ejemplo1 2) ∧
    (posOf ejemplo1 3 4 - ((acumFi ejemplo1 2 : ℤ) : ℚ)) /
      ((⟨30, 35, 8⟩ : Clase).fi : ℚ) = 1 ∧
    cuantil_agrupado ejemplo1 3 4 = PyResult.val (⟨30, 35, 8⟩ : Clase).maximo := by
  have h := C7_frontera ejemplo1 3 4 (by decide) (by decide) 2 ⟨30, 35, 8⟩
    (by decide) (by decide) (by with_unfolding_all decide)
  exact ⟨by with_unfolding_all decide, h.1, h.2.1, h.2.2⟩

/-- C7 counterexample: with a negative frequency in the middle,
`[(0,1,5), (1,2,-3), (2,3,3)]` and `k = m = 4` give position
`5 = Fi` of the third class (frequency 3 > 0), but the locator assigns
the position to class 0 and the quantile returns 1, not that class's
maximum 3: the claim as stated (without non-negativity) is false. -/
theorem C7_frontera_counterexample :
    sumFi [(⟨0, 1, 5⟩ : Clase), ⟨1, 2, -3⟩, ⟨2, 3, 3⟩] = 5 ∧
    posOf [(⟨0, 1, 5⟩ : Clase), ⟨1, 2, -3⟩, ⟨2, 3, 3⟩] 4 4 =
      ((acumFi [(⟨0, 1, 5⟩ : Clase), ⟨1, 2, -3⟩, ⟨2, 3, 3⟩] 3 : ℤ) : ℚ) ∧
    ([(⟨0, 1, 5⟩ : Clase), ⟨1, 2, -3⟩, ⟨2, 3, 3⟩][2]?).map Clase.fi = some 3 ∧
    buscar_clase_por_posicion [(⟨0, 1, 5⟩ : Clase), ⟨1, 2, -3⟩, ⟨2, 3, 3⟩]
      (posOf [(⟨0, 1, 5⟩ : Clase), ⟨1, 2, -3⟩, ⟨2, 3, 3⟩] 4 4) = some (0, 0) ∧
    some ((0 : Nat), (0 : ℤ)) ≠
      some (2, acumFi [(⟨0, 1, 5⟩ : Clase), ⟨1, 2, -3⟩, ⟨2, 3, 3⟩] 2) ∧
    cuantil_agrupado [(⟨0, 1, 5⟩ : Clase), ⟨1, 2, -3⟩, ⟨2, 3, 3⟩] 4 4 =
      PyResult.val 1 ∧
    PyResult.val (1 : ℚ) ≠ PyResult.val ((⟨2, 3, 3⟩ : Clase).maximo) :=
  ⟨by decide, by with_unfolding_all decide, by decide,
   by with_unfolding_all decide, by decide,
   by with_unfolding_all decide, by with_unfolding_all decide⟩

/-! ### C8: zero-frequency located class -/

/-- C8 (amended): when the located class has `fi = 0` (and `n ≠ 0`,
`m ≠ 0`), the quantile raises `ZeroDivisionError` — modelled as the
`error` result, distinct from both the NaN sentinel and any value — it
does not silently produce infinity. -/
theorem C8_cero_divide (clases : List Clase) (k m : ℤ)
    (hn : sumFi clases ≠ 0) (hm : m ≠ 0) (j : Nat) (F : ℤ) (c : Clase)
    (hloc : buscar_clase_por_posicion clases (posOf clases k m) = some (j, F))
    (hc : clases[j]? = some c) (hfi : c.fi = 0) :
    cuantil_agrupado clases k m = PyResult.error := by
  simp only [cuantil_agrupado, hloc, hc, if_neg hn, if_neg hm, if_pos hfi]

/-- Witness for C8: `[(0,1,5), (1,2,0)]`, `k = 9, m = 4`: position
`11.25` exceeds `n = 5`, the fallback locates the zero-frequency last
class and the quantile raises. -/
theorem C8_cero_divide_witness :
    sumFi [(⟨0, 1, 5⟩ : Clase), ⟨1, 2, 0⟩] = 5 ∧
    buscar_clase_por_posicion [(⟨0, 1, 5⟩ : Clase), ⟨1, 2, 0⟩]
      (posOf [(⟨0, 1, 5⟩ : Clase), ⟨1, 2, 0⟩] 9 4) = some (1, 5) ∧
    [(⟨0, 1, 5⟩ : Clase), ⟨1, 2, 0⟩][1]? = some ⟨1, 2, 0⟩ ∧
    cuantil_agrupado [(⟨0, 1, 5⟩ : Clase), ⟨1, 2, 0⟩] 9 4 = PyResult.error :=
  ⟨by decide, by with_unfolding_all decide, by decide,
   C8_cero_divide [(⟨0, 1, 5⟩ : Clase), ⟨1, 2, 0⟩] 9 4 (by decide) (by decide)
     1 5 ⟨1, 2, 0⟩ (by with_unfolding_all decide) (by decide) (by decide)⟩

/-- C8 counterexample: at `[(0,3,2), (3,6,0)]` with `k = 7, m = 4` the
located class has zero frequency and the code raises
(`PyResult.error`), which is not the degenerate/undefined sentinel the
claim promises (`PyResult.nan`) nor any returned value. -/
theorem C8_cero_divide_counterexample :
    sumFi [(⟨0, 3, 2⟩ : Clase), ⟨3, 6, 0⟩] = 2 ∧
    buscar_clase_por_posicion [(⟨0, 3, 2⟩ : Clase), ⟨3, 6, 0⟩]
      (posOf [(⟨0, 3, 2⟩ : Clase), ⟨3, 6, 0⟩] 7 4) = some (1, 2) ∧
    ([(⟨0, 3, 2⟩ : Clase), ⟨3, 6, 0⟩][1]?).map Clase.fi = some 0 ∧
    cuantil_agrupado [(⟨0, 3, 2⟩ : Clase), ⟨3, 6, 0⟩] 7 4 = PyResult.error ∧
    (PyResult.error : PyResult ℚ) ≠ PyResult.nan :=
  ⟨by decide, by with_unfolding_all decide, by decide,
   by with_unfolding_all decide, by decide⟩

/-! ### C9: no division by zero for in-range quantile requests -/

/-- C9 (amended): with non-negative frequencies, `n > 0` and
`1 ≤ k ≤ m`, the located class has strictly positive frequency and the
quantile returns a value — the interpolation never divides by zero. -/
theorem C9_localiza_fi_positivo (clases : List Clase)
    (hnn : ∀ c ∈ clases, 0 ≤ c.fi) (hn : 0 < sumFi clases)
    (k m : ℤ) (hk : 1 ≤ k) (hkm : k ≤ m) :
    ∃ j c, buscar_clase_por_posicion clases (posOf clases k m) =
        some (j, acumFi clases j) ∧
      clases[j]? = some c ∧ 0 < c.fi ∧
      ∃ q, cuantil_agrupado clases k m = PyResult.val q := by
  obtain ⟨j, c, hj, hget, hfi, hbus, hq, _, _⟩ :=
    cuantil_locate clases k m hn hk hkm
  exact ⟨j, c, hbus, hget, hfi, _, hq⟩

/-- Witness for C9: the worked example with `k = 3, m = 4`. -/
theorem C9_localiza_fi_positivo_witness :
    (∀ c ∈ ejemplo1, 0 ≤ c.fi) ∧ 0 < sumFi ejemplo1 ∧
    (1 : ℤ) ≤ 3 ∧ (3 : ℤ) ≤ 4 ∧
    (∃ j c, buscar_clase_por_posicion ejemplo1 (posOf ejemplo1 3 4) =
        some (j, acumFi ejemplo1 j) ∧
      ejemplo1[j]? = some c ∧ 0 < c.fi ∧
      ∃ q, cuantil_agrupado ejemplo1 3 4 = PyResult.val q) :=
  ⟨by decide, by decide, by decide, by decide,
   C9_localiza_fi_positivo ejemplo1 (by decide) (by decide) 3 4
     (by decide) (by decide)⟩

/-- C9 counterexample: `[(0,2,3), (2,4,0)]` with `k = 5, m = 4`
satisfies every hypothesis of the claim (non-negative frequencies,
`n = 3 > 0`, `k ≥ 1`, `m ≥ 1`), yet the position `15/4` exceeds `n`,
the fallback locates the last class whose frequency is 0 — not
strictly positive — and the division raises. -/
theorem C9_localiza_fi_positivo_counterexample :
    [(⟨0, 2, 3⟩ : Clase), ⟨2, 4, 0⟩].map Clase.fi = [3, 0] ∧
    sumFi [(⟨0, 2, 3⟩ : Clase), ⟨2, 4, 0⟩] = 3 ∧
    buscar_clase_por_posicion [(⟨0, 2, 3⟩ : Clase), ⟨2, 4, 0⟩]
      (posOf [(⟨0, 2, 3⟩ : Clase), ⟨2, 4, 0⟩] 5 4) = some (1, 3) ∧
    ([(⟨0, 2, 3⟩ : Clase), ⟨2, 4, 0⟩][1]?).map Clase.fi = some 0 ∧
    cuantil_agrupado [(⟨0, 2, 3⟩ : Clase), ⟨2, 4, 0⟩] 5 4 = PyResult.error :=
  ⟨by decide, by decide, by with_unfolding_all decide, by decide,
   by with_unfolding_all decide⟩
